import Mathlib

/-!
Verification of the client-side derived-state computation layer of the
Clarity personal-finance app (frontend/src/Dashboard.tsx and
frontend/src/CategoryView.tsx), against its natural-language specification.

Conventions of the embedding:
* JavaScript numbers produced by `parseFloat` on an `amount` string are
  modelled as `Option ℚ`: `some q` is the finite value `q`, `none` is `NaN`
  (the result of `parseFloat` on a non-numeric string).  Addition and
  subtraction propagate `NaN`, exactly as IEEE floats do (`fadd`, `fsub`).
  Rounding of IEEE doubles is immaterial to the claims checked here.
* ISO date strings are kept as `String` with lexicographic order, which the
  code itself relies on (`localeCompare`, `>=` on date strings).
* For the weekly-spend window, calendar dates are modelled as day numbers
  (`ℤ`): `new Date(Date.now() - 7*86400000)` keeps the time of day, so its
  date part is exactly `today - 7`; lexicographic ISO comparison coincides
  with numeric comparison of day numbers.
-/

namespace Clarity

/-- Result of a JavaScript floating-point computation: `none` is `NaN`. -/
abbrev FloatVal := Option ℚ

/-- JavaScript `+` on `parseFloat` results: `NaN` absorbs. -/
def fadd : FloatVal → FloatVal → FloatVal
  | some a, some b => some (a + b)
  | _, _ => none

/-- JavaScript `-` on `parseFloat` results: `NaN` absorbs. -/
def fsub : FloatVal → FloatVal → FloatVal
  | some a, some b => some (a - b)
  | _, _ => none

/-- Transaction type enum (`types.ts`, field `type`). -/
inductive TxType where
  | income
  | expense
deriving DecidableEq

/-- Transaction as used by the aggregation layer (`types.ts`): `amount` holds
the `parseFloat` of the decimal `amount` string (`none` for a non-numeric
string), `date` the ISO date string.  Fields not read by the derived-state
layer (id, description, timestamps) are omitted. -/
structure Tx where
  type : TxType
  amount : FloatVal
  category : String
  date : String
deriving DecidableEq

/-- Dashboard.tsx line 522: `transactions.filter(t => t.type === "income").reduce((s, t) => s + parseFloat(t.amount), 0)`. -/
def totalIncome (txs : List Tx) : FloatVal :=
  (txs.filter fun t => t.type == TxType.income).foldl (fun s t => fadd s t.amount) (some 0)

/-- Dashboard.tsx line 523: the same reduction over expense transactions. -/
def totalExpense (txs : List Tx) : FloatVal :=
  (txs.filter fun t => t.type == TxType.expense).foldl (fun s t => fadd s t.amount) (some 0)

/-- Dashboard.tsx line 524: `net = totalIncome - totalExpense`. -/
def netBalance (txs : List Tx) : FloatVal :=
  fsub (totalIncome txs) (totalExpense txs)

/-- One point of the time series built by `buildAreaData`: the map value
`{income, expense}` keyed by the ISO date.  The display reformatting of the
date by `fmtShort` is presentation only and is not modelled. -/
structure AreaEntry where
  date : String
  income : FloatVal
  expense : FloatVal
deriving DecidableEq

/-- Body of the `forEach` in `buildAreaData` (Dashboard.tsx 290-291): add the
transaction amount to the income or expense field of its date's entry. -/
def bumpEntry (e : AreaEntry) (t : Tx) : AreaEntry :=
  if t.type = TxType.income then { e with income := fadd e.income t.amount }
  else { e with expense := fadd e.expense t.amount }

/-- Insertion-ordered map update of `buildAreaData` (Dashboard.tsx 288-291):
if the date is present, update its entry in place; otherwise append a fresh
`{income: 0, expense: 0}` entry (then bumped), as `map.set` on a missing key
appends in iteration order. -/
def addTo : List AreaEntry → Tx → List AreaEntry
  | [], t => [bumpEntry ⟨t.date, some 0, some 0⟩ t]
  | e :: es, t =>
    if e.date = t.date then bumpEntry e t :: es
    else e :: addTo es t

/-- Dashboard.tsx 285-294, `buildAreaData`: sort a copy of the transactions by
date (`localeCompare` on ISO strings is lexicographic order) and fold them
into the insertion-ordered date map; `Array.from(map.entries())` returns the
entries in insertion order. -/
def buildAreaData (txs : List Tx) : List AreaEntry :=
  (txs.mergeSort fun a b => a.date ≤ b.date).foldl addTo []

/-- Map update of `buildPieData` (Dashboard.tsx 298-300):
`map.set(t.category, (map.get(t.category) ?? 0) + parseFloat(t.amount))`. -/
def pieAdd : List (String × FloatVal) → Tx → List (String × FloatVal)
  | [], t => [(t.category, fadd (some 0) t.amount)]
  | (c, v) :: rest, t =>
    if c = t.category then (c, fadd v t.amount) :: rest
    else (c, v) :: pieAdd rest t

/-- Grouping stage of `buildPieData` (Dashboard.tsx 296-300): per-category
expense totals in insertion order.  The subsequent `toFixed(2)` rounding and
descending display sort (lines 301-303) are presentation and not modelled. -/
def buildPieGroups (txs : List Tx) : List (String × FloatVal) :=
  (txs.filter fun t => t.type == TxType.expense).foldl pieAdd []

/-- Dashboard.tsx line 61: the fixed ascending milestone thresholds. -/
def SAVING_MILESTONES : List ℚ := [100, 250, 500, 1000, 2500, 5000, 10000]

/-- State of the `useMilestones` hook: the `celebrated` list and the net value
held in `prevNetRef`. -/
structure MilestoneState where
  celebrated : List ℚ
  prevNet : ℚ
deriving DecidableEq

/-- Loop condition of `useMilestones` (Dashboard.tsx line 74):
`prevNet < m && net >= m && !celebrated.includes(m)`. -/
def crossesBool (prevNet net : ℚ) (celebrated : List ℚ) (m : ℚ) : Bool :=
  decide (prevNet < m) && decide (net ≥ m) && !(decide (m ∈ celebrated))

/-- One run of the `useMilestones` effect (Dashboard.tsx 68-82) on a new net
observation: store `net` in `prevNetRef`; bail out if net did not increase;
otherwise fire for the first threshold, in list order, satisfying the loop
condition, appending it to `celebrated`, and stop.  The returned option is
the emitted "milestone crossed" event (toast + confetti). -/
def milestoneStep (thresholds : List ℚ) (s : MilestoneState) (net : ℚ) :
    MilestoneState × Option ℚ :=
  if net ≤ s.prevNet then (⟨s.celebrated, net⟩, none)
  else
    match thresholds.find? (crossesBool s.prevNet net s.celebrated) with
    | some m => (⟨s.celebrated ++ [m], net⟩, some m)
    | none => (⟨s.celebrated, net⟩, none)

/-- State of `useMilestones` at mount: `celebrated` starts `[]` and
`prevNetRef` is initialised to the first observed net (Dashboard.tsx 64-66). -/
def initMilestones (net0 : ℚ) : MilestoneState := ⟨[], net0⟩

/-- Sequence of effect runs over successive net observations, collecting the
emitted events. -/
def milestoneRun (thresholds : List ℚ) (s : MilestoneState) (nets : List ℚ) :
    MilestoneState × List (Option ℚ) :=
  match nets with
  | [] => (s, [])
  | n :: rest =>
    let p := milestoneStep thresholds s n
    let q := milestoneRun thresholds p.1 rest
    (q.1, p.2 :: q.2)

/-- Number of times event `some m` occurs in an emitted event list. -/
def countSome (m : ℚ) (es : List (Option ℚ)) : Nat :=
  (es.filter fun e => decide (e = some m)).length

/-- Spending-limit percentage (Dashboard.tsx 113-114):
`limit > 0 ? spend / limit * 100 : 0`. -/
def pct (spend limit : ℚ) : ℚ :=
  if 0 < limit then spend / limit * 100 else 0

/-- Spending-limit classification. -/
inductive LimitStatus where
  | ok
  | warning
  | over
deriving DecidableEq

/-- Classification realised by `LimitBanner` (Dashboard.tsx 126-131): no
banner (`ok`) when `limit <= 0 || pct < 80`; otherwise `over` when
`pct >= 100`, else `warning` (`pct >= 80 && pct < 100`).  The ephemeral
`dismissed` flag is presentation state outside this component's contract. -/
def classify (spend limit : ℚ) : LimitStatus :=
  if limit ≤ 0 ∨ pct spend limit < 80 then LimitStatus.ok
  else if 100 ≤ pct spend limit then LimitStatus.over
  else LimitStatus.warning

/-- Modelled from the spec's words (section 4.2) for comparison with
`classify`: `ok` when pct < 80, `warning` when 80 <= pct < 100, `over` when
pct >= 100, with `pct` as computed by the code. -/
def classifySpec (spend limit : ℚ) : LimitStatus :=
  if 100 ≤ pct spend limit then LimitStatus.over
  else if 80 ≤ pct spend limit then LimitStatus.warning
  else LimitStatus.ok

/-- Transaction as seen by the weekly-spend window check, with the date as a
day number (see the embedding conventions above) and a well-formed amount. -/
structure WTx where
  type : TxType
  amount : ℚ
  date : ℤ
deriving DecidableEq

/-- Dashboard.tsx 109-111: `weeklySpend` filters expenses with
`t.date >= weekAgo` and reduces with `+`; line 103 computes `weekAgo` as the
date part of `Date.now() - 7*86400000`, i.e. the day number `today - 7`.
There is no upper bound on the date. -/
def weeklySpend (txs : List WTx) (today : ℤ) : ℚ :=
  (txs.filter fun t => t.type == TxType.expense && decide (today - 7 ≤ t.date)).foldl
    (fun s t => s + t.amount) 0

/-- Modelled from the spec's words (section 4.2) for comparison with
`weeklySpend`: sum of expense amounts with `today - 6 <= date <= today`
(7-day inclusive trailing window). -/
def weeklySpendSpec (txs : List WTx) (today : ℤ) : ℚ :=
  ((txs.filter fun t =>
      t.type == TxType.expense && decide (today - 6 ≤ t.date) && decide (t.date ≤ today)).map
    (fun t => t.amount)).sum

/-- The four filter fields of the Dashboard component state
(Dashboard.tsx 495-498). -/
structure FilterFields where
  ftype : String
  fcategory : String
  ffrom : String
  fto : String
deriving DecidableEq

/-- The four session-storage entries `clarity:filterType`,
`clarity:filterCategory`, `clarity:filterFrom`, `clarity:filterTo`:
`none` means the key is absent, `some v` an entry holding `v`. -/
structure FilterStore where
  ftype : Option String
  fcategory : Option String
  ffrom : Option String
  fto : Option String
deriving DecidableEq

/-- Clear-filters operation (Dashboard.tsx 707-717 together with the
persistence effects at 501-504).  The click handler sets all four state
fields to `""` and calls `sessionStorage.removeItem` on all four keys.
React then commits the state updates, and each persistence effect
`useEffect(() => sessionStorage.setItem(key, field), [field])` re-runs for
exactly the fields whose value changed (those that were not already `""`),
writing the new empty string to its key.  The result is the field state and
the storage after the effects have run. -/
def clearFilters (f : FilterFields) (st : FilterStore) : FilterFields × FilterStore :=
  let removed : FilterStore := ⟨none, none, none, none⟩
  let finalStore : FilterStore :=
    ⟨if f.ftype = "" then removed.ftype else some "",
     if f.fcategory = "" then removed.fcategory else some "",
     if f.ffrom = "" then removed.ffrom else some "",
     if f.fto = "" then removed.fto else some ""⟩
  (⟨"", "", "", ""⟩, finalStore)

/-- CategoryView.tsx 1333-1338, `orderedCategories` (the spec's
`mergeWithObserved`): the saved order filtered to categories present in the
data, followed by the data's categories not already picked up, in
first-observed order. -/
def orderedCategories (categoryOrder fromData : List String) : List String :=
  let saved := categoryOrder.filter fun c => fromData.contains c
  let newOnes := fromData.filter fun c => !(saved.contains c)
  saved ++ newOnes

/-- Proof helper: JavaScript-style summation of a list of float values,
`reduce((s, x) => s + x, 0)`. -/
def osum (l : List FloatVal) : FloatVal :=
  l.foldl fadd (some 0)

/-- Proof helper: the contribution of a transaction to the income field of
its date's entry in `buildAreaData`. -/
def cIncome (t : Tx) : FloatVal :=
  if t.type = TxType.income then t.amount else some 0

/-- Proof helper: the contribution of a transaction to the expense field of
its date's entry in `buildAreaData`. -/
def cExpense (t : Tx) : FloatVal :=
  if t.type = TxType.expense then t.amount else some 0

/-- Proof helper: number of occurrences of a category tag in a list. -/
def countStr (c : String) (l : List String) : Nat :=
  (l.filter fun x => decide (x = c)).length

/-- A transaction whose `amount` string is non-numeric, so `parseFloat`
returns NaN (modelled as `none`). -/
def badTx : Tx := ⟨TxType.expense, none, "food", "2024-01-01"⟩

/-- A well-formed expense of 20 in another category, observed alongside
`badTx`. -/
def goodTx : Tx := ⟨TxType.expense, some 20, "transport", "2024-01-01"⟩

/-- The concrete scenario of spec section 8: an expense of 50 and an income
of 200 on one day, an expense of 30 the next day. -/
def scenarioTxs : List Tx :=
  [⟨TxType.expense, some 50, "food", "2024-01-01"⟩,
   ⟨TxType.income, some 200, "salary", "2024-01-01"⟩,
   ⟨TxType.expense, some 30, "food", "2024-01-02"⟩]

theorem fadd_some_zero_left (x : FloatVal) : fadd (some 0) x = x := by
  cases x <;> simp [fadd]

theorem fadd_some_zero_right (x : FloatVal) : fadd x (some 0) = x := by
  cases x <;> simp [fadd]

theorem fadd_comm (x y : FloatVal) : fadd x y = fadd y x := by
  cases x <;> cases y <;> simp [fadd, add_comm]

theorem fadd_assoc (x y z : FloatVal) : fadd (fadd x y) z = fadd x (fadd y z) := by
  cases x <;> cases y <;> cases z <;> simp [fadd, add_assoc]

theorem fadd_right_comm (x y z : FloatVal) : fadd (fadd x y) z = fadd (fadd x z) y := by
  rw [fadd_assoc, fadd_comm y z, fadd_assoc]

theorem foldl_fadd_init (l : List FloatVal) :
    ∀ init : FloatVal, l.foldl fadd init = fadd init (osum l) := by
  induction l with
  | nil => intro init; simp [osum, fadd_some_zero_right]
  | cons x t ih =>
    intro init
    simp only [List.foldl_cons, osum] at *
    rw [ih (fadd init x), ih (fadd (some 0) x), fadd_some_zero_left, fadd_assoc]

theorem osum_cons (x : FloatVal) (l : List FloatVal) :
    osum (x :: l) = fadd x (osum l) := by
  simp only [osum, List.foldl_cons]
  rw [foldl_fadd_init, fadd_some_zero_left, osum]

theorem osum_perm {l₁ l₂ : List FloatVal} (h : l₁.Perm l₂) : osum l₁ = osum l₂ := by
  induction h with
  | nil => rfl
  | cons x _ ih => rw [osum_cons, osum_cons, ih]
  | swap x y l => rw [osum_cons, osum_cons, osum_cons, osum_cons,
      ← fadd_assoc, ← fadd_assoc, fadd_comm y x]
  | trans _ _ ih₁ ih₂ => rw [ih₁, ih₂]

theorem countStr_cons (c x : String) (l : List String) :
    countStr c (x :: l) = (if x = c then 1 else 0) + countStr c l := by
  by_cases h : x = c <;> simp [countStr, List.filter_cons, h, Nat.add_comm]

theorem countStr_append (c : String) (l₁ l₂ : List String) :
    countStr c (l₁ ++ l₂) = countStr c l₁ + countStr c l₂ := by
  simp [countStr, List.filter_append]

theorem countStr_eq_zero {c : String} {l : List String} (h : c ∉ l) : countStr c l = 0 := by
  induction l with
  | nil => rfl
  | cons x t ih =>
    rw [countStr_cons]
    have hx : ¬x = c := fun e => h (e ▸ List.mem_cons_self x t)
    rw [if_neg hx, ih (fun hm => h (List.mem_cons_of_mem _ hm))]

theorem countStr_eq_one {c : String} {l : List String} (h1 : l.Nodup) (h2 : c ∈ l) :
    countStr c l = 1 := by
  induction l with
  | nil => cases h2
  | cons x t ih =>
    rcases List.nodup_cons.1 h1 with ⟨hx, ht⟩
    rw [countStr_cons]
    rcases List.mem_cons.1 h2 with rfl | hm
    · rw [if_pos rfl, countStr_eq_zero hx]
    · have hxc : ¬x = c := fun e => hx (e ▸ hm)
      rw [if_neg hxc, ih ht hm]

theorem pct_of_nonpos {spend limit : ℚ} (h : limit ≤ 0) : pct spend limit = 0 := by
  simp [pct, not_lt.mpr h]

/-- Claim C6: the spending-limit classification is `ok` for pct < 80,
`warning` for 80 <= pct < 100, `over` for pct >= 100, with
pct = spend / limit * 100 when limit > 0 and pct = 0 when limit = 0; a limit
of 0 is always `ok`; limit 100 with spend 85 is `warning`, with spend 100 is
`over`. -/
theorem C6_limit_classification :
    (∀ spend limit : ℚ, classify spend limit = classifySpec spend limit)
    ∧ (∀ spend : ℚ, classify spend 0 = LimitStatus.ok)
    ∧ classify 85 100 = LimitStatus.warning
    ∧ classify 100 100 = LimitStatus.over := by
  have key : ∀ spend limit : ℚ, classify spend limit = classifySpec spend limit := by
    intro s l
    unfold classify classifySpec
    rcases le_or_lt l 0 with hl | hl
    · rw [pct_of_nonpos hl]
      norm_num [hl]
    · have hl' : ¬l ≤ 0 := not_le.2 hl
      simp only [hl', false_or]
      split_ifs with h1 h2 h3 <;> first | rfl | (exfalso; push_neg at *; linarith)
  refine ⟨key, ?_, ?_, ?_⟩
  · intro s
    simp [classify, le_refl]
  · rw [key]
    norm_num [classifySpec, pct]
  · rw [key]
    norm_num [classifySpec, pct]

theorem foldl_add_amount (l : List WTx) :
    ∀ a : ℚ, l.foldl (fun s t => s + t.amount) a = a + (l.map fun t => t.amount).sum := by
  induction l with
  | nil => intro a; simp
  | cons x t ih => intro a; simp [ih, add_assoc]

/-- Claim C2 counterexample: with `today = 0` (as a day number), an expense
of 10 dated exactly 7 days before today is counted by the code's
`weeklySpend` but lies outside the claimed window `today - 6 .. today`, and
an expense of 5 dated tomorrow is also counted by the code though the
claimed window excludes it; so `weeklySpend` does not equal the claimed
7-day-window sum. -/
theorem C2_counterexample :
    weeklySpend [⟨TxType.expense, 10, -7⟩] 0 = 10
    ∧ weeklySpendSpec [⟨TxType.expense, 10, -7⟩] 0 = 0
    ∧ weeklySpend [⟨TxType.expense, 5, 1⟩] 0 = 5
    ∧ weeklySpendSpec [⟨TxType.expense, 5, 1⟩] 0 = 0
    ∧ weeklySpend [⟨TxType.expense, 10, -7⟩] 0 ≠ weeklySpendSpec [⟨TxType.expense, 10, -7⟩] 0 := by
  refine ⟨?_, ?_, ?_, ?_, ?_⟩ <;>
    simp [weeklySpend, weeklySpendSpec, List.filter_cons]

/-- Claim C2 as amended: `weeklySpend` equals the sum of expense amounts with
`date >= today - 7` — an 8-day inclusive trailing window — and has no upper
date bound, so in particular a future-dated expense is included in full. -/
theorem C2_amended :
    ∀ (txs : List WTx) (today : ℤ),
      weeklySpend txs today =
        ((txs.filter fun t => t.type == TxType.expense && decide (today - 7 ≤ t.date)).map
          (fun t => t.amount)).sum
      ∧ ∀ t : WTx, t.type = TxType.expense → today < t.date →
          weeklySpend (t :: txs) today = t.amount + weeklySpend txs today := by
  have key : ∀ (txs : List WTx) (today : ℤ),
      weeklySpend txs today =
        ((txs.filter fun t => t.type == TxType.expense && decide (today - 7 ≤ t.date)).map
          (fun t => t.amount)).sum := by
    intro txs today
    unfold weeklySpend
    rw [foldl_add_amount, zero_add]
  intro txs today
  refine ⟨key txs today, ?_⟩
  intro t htype hdate
  rw [key, key]
  have hcond : (t.type == TxType.expense && decide (today - 7 ≤ t.date)) = true := by
    have h1 : (t.type == TxType.expense) = true := by rw [htype]; exact beq_self_eq_true _
    have h2 : decide (today - 7 ≤ t.date) = true := decide_eq_true (by omega)
    rw [h1, h2]
    rfl
  simp only [List.filter_cons, hcond, if_true, List.map_cons, List.sum_cons]

/-- Claim C2 amended witness: a future-dated expense (date 2 with today 0)
is included in the code's weekly spend, instantiating the amended claim at a
concrete input. -/
theorem C2_amended_witness :
    ((⟨TxType.expense, 4, 2⟩ : WTx).type = TxType.expense ∧ (0 : ℤ) < (⟨TxType.expense, 4, 2⟩ : WTx).date)
    ∧ weeklySpend [⟨TxType.expense, 4, 2⟩] 0 =
        (⟨TxType.expense, 4, 2⟩ : WTx).amount + weeklySpend [] 0 :=
  ⟨⟨rfl, by decide⟩, (C2_amended [] 0).2 ⟨TxType.expense, 4, 2⟩ rfl (by decide)⟩

/-- Claim C10 counterexample: clearing the filters when the type filter held
"income" leaves the session store with an entry holding the empty string for
`clarity:filterType` (the persistence effect re-writes the key after the
handler removed it), not with the key absent as the claim states. -/
theorem C10_counterexample :
    (clearFilters ⟨"income", "", "", ""⟩ ⟨some "income", none, none, none⟩).2.ftype = some ""
    ∧ (clearFilters ⟨"income", "", "", ""⟩ ⟨some "income", none, none, none⟩).2.ftype ≠ none := by
  refine ⟨by decide, by decide⟩

/-- Claim C10 as amended: clearing resets all four filter fields to empty,
and for each field the persisted entry ends absent exactly when the field
was already empty before the clear; a field that was non-empty ends with an
entry holding the empty string.  No key ever retains a non-empty value, so
functionally all four filters are off. -/
theorem C10_amended :
    ∀ (f : FilterFields) (st : FilterStore),
      (clearFilters f st).1 = ⟨"", "", "", ""⟩
      ∧ (clearFilters f st).2.ftype = (if f.ftype = "" then none else some "")
      ∧ (clearFilters f st).2.fcategory = (if f.fcategory = "" then none else some "")
      ∧ (clearFilters f st).2.ffrom = (if f.ffrom = "" then none else some "")
      ∧ (clearFilters f st).2.fto = (if f.fto = "" then none else some "")
      ∧ ((clearFilters f st).2.ftype = none ↔ f.ftype = "")
      ∧ ((clearFilters f st).2.fcategory = none ↔ f.fcategory = "")
      ∧ ((clearFilters f st).2.ffrom = none ↔ f.ffrom = "")
      ∧ ((clearFilters f st).2.fto = none ↔ f.fto = "") := by
  intro f st
  refine ⟨rfl, rfl, rfl, rfl, rfl, ?_, ?_, ?_, ?_⟩ <;>
    (simp only [clearFilters]; split <;> simp_all)

/-- Claim C9: `orderedCategories` (the spec's `mergeWithObserved`) returns the
saved order filtered to the observed categories followed by the observed
categories not in the saved order in first-observed order; with
duplicate-free inputs every observed category appears exactly once, nothing
not observed appears, and previously ordered categories keep their relative
order (immediate from the filter form); the spec's example evaluates to
["food", "rent", "gift"]. -/
theorem C9_merge_with_observed :
    (∀ savedOrder fromData : List String,
      orderedCategories savedOrder fromData =
        savedOrder.filter (fun c => fromData.contains c)
          ++ fromData.filter (fun c => !(savedOrder.contains c)))
    ∧ (∀ savedOrder fromData : List String, savedOrder.Nodup → fromData.Nodup →
        ∀ c ∈ fromData, countStr c (orderedCategories savedOrder fromData) = 1)
    ∧ (∀ savedOrder fromData : List String, ∀ c ∈ orderedCategories savedOrder fromData,
        c ∈ fromData)
    ∧ orderedCategories ["food", "rent"] ["rent", "food", "gift"] = ["food", "rent", "gift"] := by
  have key : ∀ savedOrder fromData : List String,
      orderedCategories savedOrder fromData =
        savedOrder.filter (fun c => fromData.contains c)
          ++ fromData.filter (fun c => !(savedOrder.contains c)) := by
    intro so fd
    unfold orderedCategories
    dsimp only
    congr 1
    refine List.filter_congr ?_
    intro c hc
    have hcc : ((so.filter fun c => fd.contains c).contains c) = (so.contains c) := by
      simp [List.contains, List.mem_filter, hc]
    simp only [hcc]
  refine ⟨key, ?_, ?_, by decide⟩
  · intro so fd h1 h2 c hc
    rw [key, countStr_append]
    by_cases hso : c ∈ so
    · have e1 : countStr c (so.filter fun c => fd.contains c) = 1 := by
        refine countStr_eq_one (h1.filter _) ?_
        exact List.mem_filter.2 ⟨hso, by simp [List.contains, hc]⟩
      have e2 : countStr c (fd.filter fun c => !(so.contains c)) = 0 := by
        refine countStr_eq_zero ?_
        intro hm
        rcases List.mem_filter.1 hm with ⟨-, hb⟩
        simp [List.contains, hso] at hb
      rw [e1, e2]
    · have e1 : countStr c (so.filter fun c => fd.contains c) = 0 := by
        refine countStr_eq_zero ?_
        intro hm
        exact hso (List.mem_filter.1 hm).1
      have e2 : countStr c (fd.filter fun c => !(so.contains c)) = 1 := by
        refine countStr_eq_one (h2.filter _) ?_
        exact List.mem_filter.2 ⟨hc, by simp [List.contains, hso]⟩
      rw [e1, e2]
  · intro so fd c hc
    rw [key] at hc
    rcases List.mem_append.1 hc with hm | hm
    · rcases List.mem_filter.1 hm with ⟨-, hb⟩
      simpa [List.contains] using hb
    · exact (List.mem_filter.1 hm).1

theorem crossesBool_iff {prevNet net : ℚ} {cel : List ℚ} {m : ℚ} :
    crossesBool prevNet net cel m = true ↔ prevNet < m ∧ m ≤ net ∧ m ∉ cel := by
  simp [crossesBool, ge_iff_le, and_assoc]

theorem find?_min_sorted {l : List ℚ} (hl : l.Pairwise (· < ·)) (p : ℚ → Bool) (m : ℚ) :
    l.find? p = some m ↔ m ∈ l ∧ p m = true ∧ ∀ x ∈ l, p x = true → m ≤ x := by
  induction l with
  | nil => simp
  | cons a t ih =>
    rcases List.pairwise_cons.1 hl with ⟨ha, ht⟩
    by_cases hpa : p a = true
    · rw [List.find?_cons_of_pos _ hpa]
      constructor
      · intro h
        have hma : a = m := by simpa using h
        subst hma
        refine ⟨List.mem_cons_self a t, hpa, ?_⟩
        intro x hx hpx
        rcases List.mem_cons.1 hx with rfl | hx
        · exact le_refl _
        · exact le_of_lt (ha x hx)
      · rintro ⟨hm, hpm, hmin⟩
        have hle : m ≤ a := hmin a (List.mem_cons_self a t) hpa
        rcases List.mem_cons.1 hm with rfl | hmt
        · rfl
        · exact absurd hle (not_le.2 (ha m hmt))
    · rw [List.find?_cons_of_neg _ hpa]
      rw [ih ht]
      constructor
      · rintro ⟨hm, hpm, hmin⟩
        refine ⟨List.mem_cons_of_mem a hm, hpm, ?_⟩
        intro x hx hpx
        rcases List.mem_cons.1 hx with rfl | hx
        · exact absurd hpx hpa
        · exact hmin x hx hpx
      · rintro ⟨hm, hpm, hmin⟩
        rcases List.mem_cons.1 hm with rfl | hmt
        · exact absurd hpm hpa
        · exact ⟨hmt, hpm, fun x hx hpx => hmin x (List.mem_cons_of_mem a hx) hpx⟩

theorem milestoneStep_of_le {ths : List ℚ} {s : MilestoneState} {net : ℚ}
    (h : net ≤ s.prevNet) : milestoneStep ths s net = (⟨s.celebrated, net⟩, none) := by
  simp [milestoneStep, h]

theorem milestoneStep_of_lt {ths : List ℚ} {s : MilestoneState} {net : ℚ}
    (h : s.prevNet < net) :
    milestoneStep ths s net =
      match ths.find? (crossesBool s.prevNet net s.celebrated) with
      | some m => (⟨s.celebrated ++ [m], net⟩, some m)
      | none => (⟨s.celebrated, net⟩, none) := by
  simp [milestoneStep, not_le.2 h]

theorem milestoneStep_snd_some_iff {ths : List ℚ} {s : MilestoneState} {net m : ℚ} :
    (milestoneStep ths s net).2 = some m ↔
      s.prevNet < net ∧ ths.find? (crossesBool s.prevNet net s.celebrated) = some m := by
  rcases le_or_lt net s.prevNet with h | h
  · rw [milestoneStep_of_le h]
    constructor
    · intro hfalse; simp at hfalse
    · rintro ⟨hlt, -⟩; exact absurd hlt (not_lt.2 h)
  · rw [milestoneStep_of_lt h]
    cases hf : ths.find? (crossesBool s.prevNet net s.celebrated) with
    | none => simp [hf, h]
    | some m' => simp [hf, h]

theorem milestoneStep_fst_of_snd_some {ths : List ℚ} {s : MilestoneState} {net m : ℚ}
    (h : (milestoneStep ths s net).2 = some m) :
    (milestoneStep ths s net).1 = ⟨s.celebrated ++ [m], net⟩ := by
  rcases milestoneStep_snd_some_iff.1 h with ⟨hlt, hf⟩
  rw [milestoneStep_of_lt hlt, hf]

theorem milestoneStep_snd_none_fst {ths : List ℚ} {s : MilestoneState} {net : ℚ}
    (h : (milestoneStep ths s net).2 = none) :
    (milestoneStep ths s net).1 = ⟨s.celebrated, net⟩ := by
  rcases le_or_lt net s.prevNet with hle | hlt
  · rw [milestoneStep_of_le hle]
  · rw [milestoneStep_of_lt hlt] at h ⊢
    cases hf : ths.find? (crossesBool s.prevNet net s.celebrated) with
    | none => rfl
    | some m' => rw [hf] at h; simp at h

theorem milestoneStep_emit_not_celebrated {ths : List ℚ} {s : MilestoneState} {net m : ℚ}
    (h : (milestoneStep ths s net).2 = some m) : m ∉ s.celebrated := by
  rcases milestoneStep_snd_some_iff.1 h with ⟨-, hf⟩
  exact (crossesBool_iff.1 (List.find?_some hf)).2.2

theorem milestoneStep_celebrated_mono {ths : List ℚ} {s : MilestoneState} {net : ℚ} :
    s.celebrated ⊆ (milestoneStep ths s net).1.celebrated := by
  cases he : (milestoneStep ths s net).2 with
  | none => rw [milestoneStep_snd_none_fst he]; exact fun x hx => hx
  | some m => rw [milestoneStep_fst_of_snd_some he]; exact fun x hx => List.mem_append_left _ hx

theorem milestoneRun_cons (ths : List ℚ) (s : MilestoneState) (n : ℚ) (rest : List ℚ) :
    milestoneRun ths s (n :: rest) =
      ((milestoneRun ths (milestoneStep ths s n).1 rest).1,
       (milestoneStep ths s n).2 :: (milestoneRun ths (milestoneStep ths s n).1 rest).2) := rfl

theorem milestoneRun_celebrated_mono (ths : List ℚ) :
    ∀ (nets : List ℚ) (s : MilestoneState),
      s.celebrated ⊆ (milestoneRun ths s nets).1.celebrated := by
  intro nets
  induction nets with
  | nil => intro s; exact fun x hx => hx
  | cons n rest ih =>
    intro s
    rw [milestoneRun_cons]
    exact fun x hx => ih (milestoneStep ths s n).1 (milestoneStep_celebrated_mono hx)

theorem milestoneRun_no_refire (ths : List ℚ) :
    ∀ (nets : List ℚ) (s : MilestoneState) (m : ℚ),
      m ∈ s.celebrated → some m ∉ (milestoneRun ths s nets).2 := by
  intro nets
  induction nets with
  | nil => intro s m _ h; simp [milestoneRun] at h
  | cons n rest ih =>
    intro s m hm h
    rw [milestoneRun_cons] at h
    rcases List.mem_cons.1 h with he | ht
    · exact milestoneStep_emit_not_celebrated he.symm hm
    · exact ih _ m (milestoneStep_celebrated_mono hm) ht

theorem milestoneRun_nodup (ths : List ℚ) :
    ∀ (nets : List ℚ) (s : MilestoneState),
      s.celebrated.Nodup → (milestoneRun ths s nets).1.celebrated.Nodup := by
  intro nets
  induction nets with
  | nil => intro s h; exact h
  | cons n rest ih =>
    intro s h
    rw [milestoneRun_cons]
    refine ih _ ?_
    cases he : (milestoneStep ths s n).2 with
    | none => rw [milestoneStep_snd_none_fst he]; exact h
    | some m =>
      rw [milestoneStep_fst_of_snd_some he]
      have hm := milestoneStep_emit_not_celebrated he
      simp [List.nodup_append, h, hm]

theorem countSome_cons (m : ℚ) (e : Option ℚ) (es : List (Option ℚ)) :
    countSome m (e :: es) = (if e = some m then 1 else 0) + countSome m es := by
  by_cases h : e = some m <;> simp [countSome, List.filter_cons, h, Nat.add_comm]

theorem countSome_eq_zero {m : ℚ} {es : List (Option ℚ)} (h : some m ∉ es) :
    countSome m es = 0 := by
  induction es with
  | nil => rfl
  | cons e t ih =>
    rw [countSome_cons]
    have he : ¬e = some m := fun hh => h (hh ▸ List.mem_cons_self e t)
    rw [if_neg he, ih (fun hm => h (List.mem_cons_of_mem _ hm))]

theorem milestoneRun_countSome_le_one (ths : List ℚ) :
    ∀ (nets : List ℚ) (s : MilestoneState) (m : ℚ),
      countSome m (milestoneRun ths s nets).2 ≤ 1 := by
  intro nets
  induction nets with
  | nil => intro s m; simp [milestoneRun, countSome]
  | cons n rest ih =>
    intro s m
    rw [milestoneRun_cons, countSome_cons]
    by_cases he : (milestoneStep ths s n).2 = some m
    · rw [if_pos he]
      have hm : m ∈ (milestoneStep ths s n).1.celebrated := by
        rw [milestoneStep_fst_of_snd_some he]
        exact List.mem_append_right _ (List.mem_singleton.2 rfl)
      have h0 : countSome m (milestoneRun ths (milestoneStep ths s n).1 rest).2 = 0 :=
        countSome_eq_zero (milestoneRun_no_refire ths rest _ m hm)
      rw [h0]
    · rw [if_neg he, Nat.zero_add]
      exact ih _ m

theorem milestones_sorted : SAVING_MILESTONES.Pairwise (· < ·) := by
  decide

/-- Claim C1: on each observation at most one event is emitted; the emitted
threshold is exactly the least threshold in the list that is not yet
achieved and satisfies previousNet < m <= net (so scanning ascending, the
lowest unachieved crossed threshold wins and scanning stops); it is marked
achieved; and on thresholds [100, 250, 500, ...] the observation sequence
0, 150, 400, 300, 600 emits events for 100 at net 150, for 250 at net 400,
nothing at net 300, and for 500 at net 600 (a skipped threshold still fires
on a later crossing). -/
theorem C1_lowest_unachieved_crossed_fires :
    (∀ (s : MilestoneState) (net m : ℚ),
      (milestoneStep SAVING_MILESTONES s net).2 = some m ↔
        m ∈ SAVING_MILESTONES ∧ m ∉ s.celebrated ∧ s.prevNet < m ∧ m ≤ net ∧
          ∀ m' ∈ SAVING_MILESTONES, m' ∉ s.celebrated → s.prevNet < m' → m' ≤ net → m ≤ m')
    ∧ (∀ (s : MilestoneState) (net m : ℚ),
        (milestoneStep SAVING_MILESTONES s net).2 = some m →
          (milestoneStep SAVING_MILESTONES s net).1.celebrated = s.celebrated ++ [m])
    ∧ (milestoneRun SAVING_MILESTONES (initMilestones 0) [150, 400, 300, 600]).2
        = [some 100, some 250, none, some 500] := by
  refine ⟨?_, ?_, by decide⟩
  · intro s net m
    rw [milestoneStep_snd_some_iff, find?_min_sorted milestones_sorted]
    constructor
    · rintro ⟨hlt, hm, hc, hmin⟩
      rcases crossesBool_iff.1 hc with ⟨h1, h2, h3⟩
      refine ⟨hm, h3, h1, h2, ?_⟩
      intro m' hm' hnc hpl hle
      exact hmin m' hm' (crossesBool_iff.2 ⟨hpl, hle, hnc⟩)
    · rintro ⟨hm, hnc, h1, h2, hmin⟩
      refine ⟨lt_of_lt_of_le h1 h2, hm, crossesBool_iff.2 ⟨h1, h2, hnc⟩, ?_⟩
      intro x hx hcx
      rcases crossesBool_iff.1 hcx with ⟨g1, g2, g3⟩
      exact hmin x hx g3 g1 g2
  · intro s net m h
    rw [milestoneStep_fst_of_snd_some h]

/-- Claim C1 witness: from the initial state with previous net 0, the
observation net = 150 emits the event for threshold 100 (instantiating the
characterisation at a concrete input). -/
theorem C1_lowest_unachieved_crossed_fires_witness :
    (milestoneStep SAVING_MILESTONES (initMilestones 0) 150).2 = some 100 :=
  (C1_lowest_unachieved_crossed_fires.1 (initMilestones 0) 150 100).mpr (by decide)

/-- Claim C4 counterexample: the hook mounts with an empty transaction list
(Dashboard.tsx 482 initialises `transactions` to `[]`, and App.tsx mounts
`Dashboard` directly), so at mount net = 0 and `prevNetRef` = 0; a balance
of 500 accumulated in a prior session then arrives with the first fetched
snapshot as the increase 0 -> 500 and fires the event for the 100
milestone — the claim's no-retroactive-fire clause is false on the code. -/
theorem C4_counterexample :
    (milestoneStep SAVING_MILESTONES (initMilestones 0) 500).2 = some 100
    ∧ (milestoneStep SAVING_MILESTONES (initMilestones 0) 500).2 ≠ none := by
  refine ⟨by decide, by decide⟩

/-- Claim C4 as amended: no event is emitted when net did not increase
(net <= previousNet), even if net is above an unachieved threshold, and a
first observation equal to the value `prevNetRef` was initialised with
emits nothing; but because the hook mounts at net 0 (empty transaction list
before the first fetch), a prior-session balance of at least 100 present in
the first fetched snapshot arrives as an increase from 0 and DOES
retroactively fire the event for the lowest threshold, 100. -/
theorem C4_no_event_without_increase :
    (∀ (s : MilestoneState) (net : ℚ), net ≤ s.prevNet →
      (milestoneStep SAVING_MILESTONES s net).2 = none)
    ∧ (∀ net0 : ℚ, (milestoneStep SAVING_MILESTONES (initMilestones net0) net0).2 = none)
    ∧ ∀ net : ℚ, 100 ≤ net →
        (milestoneStep SAVING_MILESTONES (initMilestones 0) net).2 = some 100 := by
  have key : ∀ (s : MilestoneState) (net : ℚ), net ≤ s.prevNet →
      (milestoneStep SAVING_MILESTONES s net).2 = none := by
    intro s net h
    rw [milestoneStep_of_le h]
  refine ⟨key, fun net0 => key _ net0 (le_refl _), ?_⟩
  intro net h
  refine milestoneStep_snd_some_iff.2 ⟨?_, ?_⟩
  · show (0 : ℚ) < net
    linarith
  · rw [find?_min_sorted milestones_sorted]
    refine ⟨by decide, ?_, ?_⟩
    · refine crossesBool_iff.2 ⟨?_, h, by simp [initMilestones]⟩
      show (0 : ℚ) < 100
      norm_num
    · intro x hx _
      have hall : ∀ x ∈ SAVING_MILESTONES, (100 : ℚ) ≤ x := by decide
      exact hall x hx

/-- Claim C4 amended witness: a repeated observation of 600 emits nothing,
and a first fetched snapshot of 500 after mounting at 0 fires the 100
milestone. -/
theorem C4_no_event_without_increase_witness :
    (((600 : ℚ) ≤ (⟨[], (600 : ℚ)⟩ : MilestoneState).prevNet)
      ∧ (milestoneStep SAVING_MILESTONES ⟨[], 600⟩ 600).2 = none)
    ∧ ((100 : ℚ) ≤ 500
      ∧ (milestoneStep SAVING_MILESTONES (initMilestones 0) 500).2 = some 100) :=
  ⟨⟨le_refl _, C4_no_event_without_increase.1 ⟨[], 600⟩ 600 (le_refl _)⟩,
   ⟨by decide, C4_no_event_without_increase.2.2 500 (by decide)⟩⟩

/-- Claim C5: within a session the achieved set only grows (no threshold is
ever removed); a threshold already achieved never fires again, even after
the net dips below it and rises above it again; the achieved list stays
duplicate-free; and over any whole session (starting from the initial
state) each threshold is emitted at most once. -/
theorem C5_achieved_is_permanent :
    (∀ (s : MilestoneState) (nets : List ℚ),
      s.celebrated ⊆ (milestoneRun SAVING_MILESTONES s nets).1.celebrated)
    ∧ (∀ (s : MilestoneState) (nets : List ℚ) (m : ℚ), m ∈ s.celebrated →
        some m ∉ (milestoneRun SAVING_MILESTONES s nets).2)
    ∧ (∀ (s : MilestoneState) (nets : List ℚ), s.celebrated.Nodup →
        (milestoneRun SAVING_MILESTONES s nets).1.celebrated.Nodup)
    ∧ ∀ (net0 : ℚ) (nets : List ℚ) (m : ℚ),
        countSome m (milestoneRun SAVING_MILESTONES (initMilestones net0) nets).2 ≤ 1 :=
  ⟨fun s nets => milestoneRun_celebrated_mono _ nets s,
   fun s nets m hm => milestoneRun_no_refire _ nets s m hm,
   fun s nets h => milestoneRun_nodup _ nets s h,
   fun _ nets m => milestoneRun_countSome_le_one _ nets _ m⟩

/-- Claim C5 witness: with 100 already achieved and previous net 150, the
observations 50 then 200 (net dips below 100 and rises above it again)
never re-emit the event for 100. -/
theorem C5_achieved_is_permanent_witness :
    ((100 : ℚ) ∈ (⟨[100], (150 : ℚ)⟩ : MilestoneState).celebrated)
    ∧ some (100 : ℚ) ∉ (milestoneRun SAVING_MILESTONES ⟨[100], 150⟩ [50, 200]).2 :=
  ⟨by decide, C5_achieved_is_permanent.2.1 ⟨[100], 150⟩ [50, 200] 100 (by decide)⟩

/-- Claim C9 witness: instantiating the exactly-once count at the spec's
example, the newly observed category "gift" appears exactly once in the
merged order. -/
theorem C9_merge_with_observed_witness :
    ((["food", "rent"] : List String).Nodup ∧ (["rent", "food", "gift"] : List String).Nodup)
    ∧ countStr "gift" (orderedCategories ["food", "rent"] ["rent", "food", "gift"]) = 1 :=
  ⟨⟨by decide, by decide⟩,
    C9_merge_with_observed.2.1 ["food", "rent"] ["rent", "food", "gift"]
      (by decide) (by decide) "gift" (by decide)⟩

/-- Claim C3 (evaluation of the code at the failing input): with a
non-numeric-amount expense record present, the expense total is NaN
(`none`) — the whole aggregate is poisoned — although the well-formed
records alone sum to 20; the category grouping carries NaN for the bad
record's category; and the time-series entry containing the bad record has
a NaN expense field.  The claim (and spec section 4.1) instead requires a
0 contribution from the bad record and a correct aggregate over the rest. -/
theorem C3_malformed_amount_poisons :
    totalExpense [badTx, goodTx] = none
    ∧ (([badTx, goodTx].filter fun t => t.type == TxType.expense).filterMap
        (fun t => t.amount)).sum = 20
    ∧ buildPieGroups [badTx, goodTx] = [("food", none), ("transport", some 20)]
    ∧ (buildAreaData [badTx, goodTx]).map (fun e => e.expense) = [none] := by
  refine ⟨by decide, ?_, ?_, ?_⟩
  · simp [badTx, goodTx, List.filter_cons, List.filterMap]
  · simp [buildPieGroups, badTx, goodTx, List.filter_cons, pieAdd, fadd]
  · have hms : List.mergeSort [badTx, goodTx] (fun a b => a.date ≤ b.date) = [badTx, goodTx] := by
      refine List.mergeSort_of_sorted ?_
      refine List.Pairwise.cons ?_ (List.pairwise_singleton _ _)
      intro b hb
      rcases List.mem_singleton.1 hb with rfl
      exact decide_eq_true (le_of_eq rfl)
    unfold buildAreaData
    rw [hms]
    simp [addTo, bumpEntry, fadd, badTx, goodTx]

theorem bumpEntry_date (e : AreaEntry) (t : Tx) : (bumpEntry e t).date = e.date := by
  unfold bumpEntry
  split <;> rfl

theorem bumpEntry_income (e : AreaEntry) (t : Tx) :
    (bumpEntry e t).income = fadd e.income (cIncome t) := by
  unfold bumpEntry cIncome
  by_cases h : t.type = TxType.income
  · simp [h]
  · simp [h, fadd_some_zero_right]

theorem bumpEntry_expense (e : AreaEntry) (t : Tx) :
    (bumpEntry e t).expense = fadd e.expense (cExpense t) := by
  unfold bumpEntry cExpense
  by_cases h : t.type = TxType.income
  · have h2 : ¬t.type = TxType.expense := by rw [h]; intro hh; cases hh
    simp [h, h2, fadd_some_zero_right]
  · have h2 : t.type = TxType.expense := by cases ht : t.type; exact absurd ht h; rfl
    simp [h, h2]

theorem addTo_map_date (t : Tx) :
    ∀ l : List AreaEntry,
      (addTo l t).map (fun e => e.date) =
        if t.date ∈ l.map (fun e => e.date) then l.map (fun e => e.date)
        else l.map (fun e => e.date) ++ [t.date] := by
  intro l
  induction l with
  | nil => simp [addTo, bumpEntry_date]
  | cons e es ih =>
    by_cases h : e.date = t.date
    · simp [addTo, h, bumpEntry_date]
    · rw [List.map_cons]
      have hne : ¬t.date = e.date := fun hh => h hh.symm
      have hmemc : (t.date ∈ e.date :: es.map fun e => e.date) ↔
          (t.date ∈ es.map fun e => e.date) := by
        simp [List.mem_cons, hne]
      simp only [addTo, if_neg h, List.map_cons, ih]
      by_cases hm : t.date ∈ es.map fun e => e.date
      · rw [if_pos hm, if_pos (hmemc.2 hm)]
      · rw [if_neg hm, if_neg (fun hh => hm (hmemc.1 hh)), List.cons_append]

theorem chain_le_foldl_addTo :
    ∀ (l : List Tx) (acc : List AreaEntry),
      l.Pairwise (fun a b => a.date ≤ b.date) →
      List.Chain' (· ≤ ·) (acc.map fun e => e.date) →
      (∀ k ∈ acc.map (fun e => e.date), ∀ t ∈ l, k ≤ t.date) →
      List.Chain' (· ≤ ·) ((l.foldl addTo acc).map fun e => e.date) := by
  intro l
  induction l with
  | nil => intro acc _ hc _; simpa using hc
  | cons t ts ih =>
    intro acc hp hc hb
    rcases List.pairwise_cons.1 hp with ⟨hts, hp'⟩
    rw [List.foldl_cons]
    refine ih (addTo acc t) hp' ?_ ?_
    · rw [addTo_map_date]
      split_ifs with hmem
      · exact hc
      · rw [List.chain'_append]
        refine ⟨hc, List.chain'_singleton _, ?_⟩
        intro x hx y hy
        have hxk : x ∈ acc.map (fun e => e.date) := by
          rcases List.mem_getLast?_eq_getLast hx with ⟨hne, rfl⟩
          exact List.getLast_mem hne
        have hyd : t.date = y := by simpa using hy
        subst hyd
        exact hb x hxk t (List.mem_cons_self t ts)
    · intro k hk t' ht'
      rw [addTo_map_date] at hk
      split_ifs at hk with hmem
      · exact hb k hk t' (List.mem_cons_of_mem _ ht')
      · rcases List.mem_append.1 hk with hk | hk
        · exact hb k hk t' (List.mem_cons_of_mem _ ht')
        · have hkd : k = t.date := by simpa using hk
          subst hkd
          exact hts t' ht'

theorem osum_map_addTo_income (t : Tx) :
    ∀ l : List AreaEntry,
      osum ((addTo l t).map fun e => e.income) =
        fadd (osum (l.map fun e => e.income)) (cIncome t) := by
  intro l
  induction l with
  | nil =>
    simp [addTo, bumpEntry_income, osum_cons, osum, fadd_some_zero_left, fadd_some_zero_right]
  | cons e es ih =>
    by_cases h : e.date = t.date
    · simp only [addTo, if_pos h, List.map_cons, osum_cons, bumpEntry_income]
      rw [fadd_comm e.income (cIncome t), fadd_assoc, fadd_comm (cIncome t)]
    · simp only [addTo, if_neg h, List.map_cons, osum_cons, ih]
      rw [← fadd_assoc]

theorem osum_map_addTo_expense (t : Tx) :
    ∀ l : List AreaEntry,
      osum ((addTo l t).map fun e => e.expense) =
        fadd (osum (l.map fun e => e.expense)) (cExpense t) := by
  intro l
  induction l with
  | nil =>
    simp [addTo, bumpEntry_expense, osum_cons, osum, fadd_some_zero_left, fadd_some_zero_right]
  | cons e es ih =>
    by_cases h : e.date = t.date
    · simp only [addTo, if_pos h, List.map_cons, osum_cons, bumpEntry_expense]
      rw [fadd_comm e.expense (cExpense t), fadd_assoc, fadd_comm (cExpense t)]
    · simp only [addTo, if_neg h, List.map_cons, osum_cons, ih]
      rw [← fadd_assoc]

theorem osum_foldl_addTo_income :
    ∀ (l : List Tx) (acc : List AreaEntry),
      osum ((l.foldl addTo acc).map fun e => e.income) =
        fadd (osum (acc.map fun e => e.income)) (osum (l.map cIncome)) := by
  intro l
  induction l with
  | nil => intro acc; simp [osum, fadd_some_zero_right]
  | cons t ts ih =>
    intro acc
    rw [List.foldl_cons, ih (addTo acc t), osum_map_addTo_income, List.map_cons, osum_cons,
      fadd_assoc]

theorem osum_foldl_addTo_expense :
    ∀ (l : List Tx) (acc : List AreaEntry),
      osum ((l.foldl addTo acc).map fun e => e.expense) =
        fadd (osum (acc.map fun e => e.expense)) (osum (l.map cExpense)) := by
  intro l
  induction l with
  | nil => intro acc; simp [osum, fadd_some_zero_right]
  | cons t ts ih =>
    intro acc
    rw [List.foldl_cons, ih (addTo acc t), osum_map_addTo_expense, List.map_cons, osum_cons,
      fadd_assoc]

theorem osum_map_cIncome (l : List Tx) :
    osum (l.map cIncome) =
      osum ((l.filter fun t => t.type == TxType.income).map fun t => t.amount) := by
  induction l with
  | nil => rfl
  | cons t ts ih =>
    by_cases h : t.type = TxType.income
    · have hb : (t.type == TxType.income) = true := by rw [h]; exact beq_self_eq_true _
      simp only [List.map_cons, osum_cons, ih, List.filter_cons, hb, if_true]
      rw [cIncome, if_pos h]
    · have hb : (t.type == TxType.income) = false := by
        cases hh : t.type == TxType.income
        · rfl
        · exact absurd (eq_of_beq hh) h
      simp only [List.map_cons, osum_cons, ih, List.filter_cons, hb, Bool.false_eq_true,
        if_false]
      rw [cIncome, if_neg h, fadd_some_zero_left]

theorem osum_map_cExpense (l : List Tx) :
    osum (l.map cExpense) =
      osum ((l.filter fun t => t.type == TxType.expense).map fun t => t.amount) := by
  induction l with
  | nil => rfl
  | cons t ts ih =>
    by_cases h : t.type = TxType.expense
    · have hb : (t.type == TxType.expense) = true := by rw [h]; exact beq_self_eq_true _
      simp only [List.map_cons, osum_cons, ih, List.filter_cons, hb, if_true]
      rw [cExpense, if_pos h]
    · have hb : (t.type == TxType.expense) = false := by
        cases hh : t.type == TxType.expense
        · rfl
        · exact absurd (eq_of_beq hh) h
      simp only [List.map_cons, osum_cons, ih, List.filter_cons, hb, Bool.false_eq_true,
        if_false]
      rw [cExpense, if_neg h, fadd_some_zero_left]

theorem totalIncome_eq_osum (txs : List Tx) :
    totalIncome txs =
      osum ((txs.filter fun t => t.type == TxType.income).map fun t => t.amount) := by
  unfold totalIncome osum
  exact (List.foldl_map _ _ _ _).symm

theorem totalExpense_eq_osum (txs : List Tx) :
    totalExpense txs =
      osum ((txs.filter fun t => t.type == TxType.expense).map fun t => t.amount) := by
  unfold totalExpense osum
  exact (List.foldl_map _ _ _ _).symm

theorem mergeSort_dateLe_pairwise (txs : List Tx) :
    (txs.mergeSort fun a b => a.date ≤ b.date).Pairwise fun a b => a.date ≤ b.date := by
  have hs := @List.sorted_mergeSort Tx (fun a b : Tx => a.date ≤ b.date)
    (fun a b c h₁ h₂ => decide_eq_true (le_trans (of_decide_eq_true h₁) (of_decide_eq_true h₂)))
    (fun a b => by simpa using le_total a.date b.date) txs
  exact hs.imp fun h => of_decide_eq_true h

/-- Claim C7: the time series built by `buildAreaData` has its dates in
non-decreasing (lexical ISO) order, and summing its income fields
(respectively expense fields) gives exactly the income (respectively
expense) total computed over the same transaction list. -/
theorem C7_time_series_order_and_sums :
    (∀ txs : List Tx, List.Chain' (· ≤ ·) ((buildAreaData txs).map fun e => e.date))
    ∧ (∀ txs : List Tx, osum ((buildAreaData txs).map fun e => e.income) = totalIncome txs)
    ∧ (∀ txs : List Tx, osum ((buildAreaData txs).map fun e => e.expense) = totalExpense txs) := by
  refine ⟨?_, ?_, ?_⟩
  · intro txs
    unfold buildAreaData
    refine chain_le_foldl_addTo _ [] (mergeSort_dateLe_pairwise txs) ?_ ?_
    · simp
    · intro k hk
      simp at hk
  · intro txs
    unfold buildAreaData
    rw [osum_foldl_addTo_income (txs.mergeSort fun a b => a.date ≤ b.date) []]
    have h0 : osum (([] : List AreaEntry).map fun e => e.income) = some 0 := rfl
    rw [h0, fadd_some_zero_left, osum_map_cIncome, totalIncome_eq_osum]
    exact osum_perm (((txs.mergeSort_perm _).filter _).map _)
  · intro txs
    unfold buildAreaData
    rw [osum_foldl_addTo_expense (txs.mergeSort fun a b => a.date ≤ b.date) []]
    have h0 : osum (([] : List AreaEntry).map fun e => e.expense) = some 0 := rfl
    rw [h0, fadd_some_zero_left, osum_map_cExpense, totalExpense_eq_osum]
    exact osum_perm (((txs.mergeSort_perm _).filter _).map _)

theorem foldl_fadd_all_some :
    ∀ l : List FloatVal, (∀ x ∈ l, x ≠ none) →
      ∀ q : ℚ, l.foldl fadd (some q) = some (q + (l.filterMap id).sum) := by
  intro l
  induction l with
  | nil => intro _ q; simp
  | cons x t ih =>
    intro h q
    rcases x with _ | a
    · exact absurd rfl (h none (List.mem_cons_self _ _))
    · rw [List.foldl_cons]
      show t.foldl fadd (some (q + a)) = _
      rw [ih (fun y hy => h y (List.mem_cons_of_mem _ hy)) (q + a)]
      simp [add_assoc]

/-- Claim C8: for a transaction list whose amounts are all well formed (the
data-model invariant), the income total is the sum of the income
transactions' amounts, the expense total the sum of the expense
transactions' amounts, and the net balance their difference; on the empty
list all three are 0. -/
theorem C8_totals_by_type :
    (∀ txs : List Tx, (∀ t ∈ txs, t.amount ≠ none) →
      totalIncome txs = some (((txs.filter fun t => t.type == TxType.income).filterMap
          fun t => t.amount).sum)
      ∧ totalExpense txs = some (((txs.filter fun t => t.type == TxType.expense).filterMap
          fun t => t.amount).sum)
      ∧ netBalance txs = some (((txs.filter fun t => t.type == TxType.income).filterMap
          fun t => t.amount).sum - ((txs.filter fun t => t.type == TxType.expense).filterMap
          fun t => t.amount).sum))
    ∧ (totalIncome [] = some 0 ∧ totalExpense [] = some 0 ∧ netBalance [] = some 0) := by
  have hall : ∀ (txs : List Tx) (p : Tx → Bool), (∀ t ∈ txs, t.amount ≠ none) →
      ∀ x ∈ (txs.filter p).map fun t => t.amount, x ≠ none := by
    intro txs p h x hx
    rcases List.mem_map.1 hx with ⟨t, ht, rfl⟩
    exact h t (List.mem_of_mem_filter ht)
  have hgen : ∀ (txs : List Tx) (p : Tx → Bool), (∀ t ∈ txs, t.amount ≠ none) →
      (txs.filter p).foldl (fun s t => fadd s t.amount) (some 0) =
        some (((txs.filter p).filterMap fun t => t.amount).sum) := by
    intro txs p h
    rw [← List.foldl_map (fun t : Tx => t.amount) fadd]
    rw [foldl_fadd_all_some _ (hall txs p h) 0]
    rw [List.filterMap_map]
    simp [Function.comp_def]
  have hinc : ∀ txs : List Tx, (∀ t ∈ txs, t.amount ≠ none) →
      totalIncome txs = some (((txs.filter fun t => t.type == TxType.income).filterMap
        fun t => t.amount).sum) := fun txs h => hgen txs _ h
  have hexp : ∀ txs : List Tx, (∀ t ∈ txs, t.amount ≠ none) →
      totalExpense txs = some (((txs.filter fun t => t.type == TxType.expense).filterMap
        fun t => t.amount).sum) := fun txs h => hgen txs _ h
  refine ⟨?_, by decide, by decide, by norm_num [netBalance, totalIncome, totalExpense, fsub]⟩
  intro txs h
  refine ⟨hinc txs h, hexp txs h, ?_⟩
  rw [netBalance, hinc txs h, hexp txs h]
  rfl

/-- Claim C8 witness: on the spec's concrete scenario (expense 50, income
200, expense 30, all well formed) the theorem applies and gives the sums of
the income and expense amounts and their difference. -/
theorem C8_totals_by_type_witness :
    (∀ t ∈ scenarioTxs, t.amount ≠ none)
    ∧ (totalIncome scenarioTxs =
        some (((scenarioTxs.filter fun t => t.type == TxType.income).filterMap
          fun t => t.amount).sum)
      ∧ totalExpense scenarioTxs =
        some (((scenarioTxs.filter fun t => t.type == TxType.expense).filterMap
          fun t => t.amount).sum)
      ∧ netBalance scenarioTxs =
        some (((scenarioTxs.filter fun t => t.type == TxType.income).filterMap
          fun t => t.amount).sum -
          ((scenarioTxs.filter fun t => t.type == TxType.expense).filterMap
          fun t => t.amount).sum)) :=
  ⟨by decide, C8_totals_by_type.1 scenarioTxs (by decide)⟩

end Clarity
